import Mathlib

/-!
Verification of the plane mesh generator (`src/plane.rs`).

The generator is embedded shallowly:

* `Plane` mirrors the Rust struct `Plane { subdivide_x, subdivide_y, x, y }`.
* The `f32` arithmetic of `Plane::vert` is modelled exactly over `ℚ`:
  every IEEE-754 binary32 operation returns the correctly rounded
  (round to nearest, ties to even, 24-bit significand) value of the exact
  rational result.  The exponent is unbounded in the model; in the range
  exercised by the program (magnitudes between `2⁻⁶⁴` and `2⁶⁵`) this
  coincides with IEEE-754 binary32, which neither overflows nor
  denormalizes there.
* The `Iterator` implementation is modelled by `Plane.next`, returning the
  emitted item together with the successor state, and `Plane.emitAt`
  giving the item of the n-th advance of a generator.
-/

/-! ### Exact model of IEEE-754 binary32 rounding -/

/-- Fuel-driven floor of the base-2 logarithm of a natural number
(`natLog2Go fuel n = ⌊log₂ n⌋` whenever `fuel ≥ n ≥ 1`). -/
def natLog2Go : Nat → Nat → Nat
  | 0, _ => 0
  | fuel + 1, n => if n ≤ 1 then 0 else natLog2Go fuel (n / 2) + 1

/-- `⌊log₂ n⌋` for `n ≥ 1` (and `0` at `0`). -/
def natLog2 (n : Nat) : Nat :=
  natLog2Go n n

/-- The rational `2 ^ e` for an integer exponent `e`. -/
def pow2 (e : ℤ) : ℚ :=
  if 0 ≤ e then ((2 ^ e.toNat : ℕ) : ℚ) else ((2 ^ (-e).toNat : ℕ) : ℚ)⁻¹

/-- `⌊log₂ q⌋` for a positive rational `q`: the numerator/denominator bit
lengths bracket the logarithm within one, and a single comparison settles it. -/
def floorLog2 (q : ℚ) : ℤ :=
  let e0 : ℤ := (natLog2 q.num.toNat : ℤ) - (natLog2 q.den : ℤ)
  if pow2 e0 ≤ q then e0 else e0 - 1

/-- Round a nonnegative rational to the nearest natural number,
ties to even. -/
def rne (q : ℚ) : Nat :=
  let f : Nat := q.num.toNat / q.den
  let r : ℚ := q - (f : ℚ)
  if r < 1 / 2 then f
  else if 1 / 2 < r then f + 1
  else if f % 2 = 0 then f else f + 1

/-- Round a positive rational to 24 significant binary digits
(nearest, ties to even): scale into `[2²³, 2²⁴)`, round to an integer,
scale back. -/
def roundPos (q : ℚ) : ℚ :=
  let e : ℤ := floorLog2 q - 23
  (rne (q * pow2 (-e)) : ℚ) * pow2 e

/-- The IEEE-754 binary32 rounding function (round to nearest, ties to
even), with unbounded exponent, as a map from exact rational values to
representable rational values. -/
def roundF32 (q : ℚ) : ℚ :=
  if q = 0 then 0
  else if q < 0 then -roundPos (-q)
  else roundPos q

/-- `f32` addition-free subtraction: the correctly rounded exact difference. -/
def fsub (a b : ℚ) : ℚ :=
  roundF32 (a - b)

/-- `f32` multiplication: the correctly rounded exact product. -/
def fmul (a b : ℚ) : ℚ :=
  roundF32 (a * b)

/-- `f32` division: the correctly rounded exact quotient. -/
def fdiv (a b : ℚ) : ℚ :=
  roundF32 (a / b)

/-- The Rust cast `n as f32` from `usize`: the correctly rounded value. -/
def natToF32 (n : Nat) : ℚ :=
  roundF32 (n : ℚ)

/-! ### The data model -/

/-- Modelled from the spec: the quadrilateral data type is an external
collaborator (a 4-vertex face container with corners `x`, `y`, `z`, `w`
constructed by `Quad::new(x, y, z, w)`); only its shape is used here. -/
structure Quad (α : Type) where
  x : α
  y : α
  z : α
  w : α
deriving DecidableEq

/-- The generator state: grid parameters and cursor,
mirroring `struct Plane`. -/
structure Plane where
  subdivide_x : Nat
  subdivide_y : Nat
  x : Nat
  y : Nat
deriving DecidableEq

/-- `Plane::new()`. -/
def Plane.new : Plane :=
  { subdivide_x := 1, subdivide_y := 1, x := 0, y := 0 }

/-- `Plane::subdivide(x, y)`.  The `assert!(x > 0 && y > 0)` is modelled by
returning `none` exactly when the assertion fires (a fatal, unrecoverable
abort in Rust). -/
def Plane.subdivide (x y : Nat) : Option Plane :=
  if 0 < x ∧ 0 < y then some { subdivide_x := x, subdivide_y := y, x := 0, y := 0 }
  else none

/-- `Plane::vert`, with the `f32` arithmetic modelled exactly:
`(2. / sx) * x as f32 - 1.` and likewise for `y`. -/
def Plane.vert (p : Plane) (x y : Nat) : ℚ × ℚ :=
  let sx := natToF32 p.subdivide_x
  let sy := natToF32 p.subdivide_y
  (fsub (fmul (fdiv 2 sx) (natToF32 x)) 1,
   fsub (fmul (fdiv 2 sy) (natToF32 y)) 1)

/-- One call of `<Plane as Iterator>::next`: the emitted item (if any)
together with the successor state.  Mirrors the Rust control flow: on
`x == subdivide_x` reset the column and advance the row, returning `None`
when the new row equals `subdivide_y`; otherwise emit the quad of the
current cell and advance the column. -/
def Plane.next (p : Plane) : Option (Quad (ℚ × ℚ)) × Plane :=
  if p.x = p.subdivide_x then
    let p' : Plane := { p with x := 0, y := p.y + 1 }
    if p'.y = p'.subdivide_y then
      (none, p')
    else
      (some ⟨p'.vert p'.x p'.y, p'.vert (p'.x + 1) p'.y,
             p'.vert (p'.x + 1) (p'.y + 1), p'.vert p'.x (p'.y + 1)⟩,
       { p' with x := p'.x + 1 })
  else
    (some ⟨p.vert p.x p.y, p.vert (p.x + 1) p.y,
           p.vert (p.x + 1) (p.y + 1), p.vert p.x (p.y + 1)⟩,
     { p with x := p.x + 1 })

/-- The state after one advance. -/
def Plane.advance (p : Plane) : Plane :=
  p.next.2

/-- The state after `n` advances. -/
def Plane.advanceN (p : Plane) : Nat → Plane
  | 0 => p
  | n + 1 => (p.advanceN n).advance

/-- The item produced by the `n`-th advance (0-based) of the sequence
started at state `p`. -/
def Plane.emitAt (p : Plane) (n : Nat) : Option (Quad (ℚ × ℚ)) :=
  (p.advanceN n).next.1

/-- `<Plane as SharedVertex>::shared_vertex`. -/
def Plane.shared_vertex (p : Plane) (idx : Nat) : ℚ × ℚ :=
  let y := idx / (p.subdivide_x + 1)
  let x := idx % (p.subdivide_x + 1)
  p.vert x y

/-- `<Plane as SharedVertex>::shared_vertex_count`. -/
def Plane.shared_vertex_count (p : Plane) : Nat :=
  (p.subdivide_x + 1) * (p.subdivide_y + 1)

/-- `<Plane as IndexedPolygon>::indexed_polygon`. -/
def Plane.indexed_polygon (p : Plane) (idx : Nat) : Quad Nat :=
  let y := idx / p.subdivide_x
  let y := y * (p.subdivide_x + 1)
  let x := idx % p.subdivide_x
  ⟨x + y + p.subdivide_x + 1,
   x + y,
   x + y + 1,
   x + y + p.subdivide_x + 2⟩

/-- `<Plane as IndexedPolygon>::indexed_polygon_count`. -/
def Plane.indexed_polygon_count (p : Plane) : Nat :=
  p.subdivide_x * p.subdivide_y

/-! ### Rational arithmetic is evaluated in proofs below -/

attribute [local semireducible] Rat.mul Rat.add Rat.sub Rat.inv

/-! ### Division/modulus bookkeeping -/

/-- Stepping an index across a row boundary: when `m % k` is the last
column, `m + 1` starts the next row. -/
lemma succ_divmod_eq (m k : Nat) (hk : 0 < k) (h : m % k + 1 = k) :
    (m + 1) % k = 0 ∧ (m + 1) / k = m / k + 1 := by
  have hdm := Nat.div_add_mod m k
  have key : (0 : Nat) + k * (m / k + 1) = m + 1 ∧ (0 : Nat) < k := by
    refine ⟨?_, hk⟩
    have h2 : k * (m / k) + (m % k + 1) = m + 1 := by rw [← Nat.add_assoc, hdm]
    rw [h] at h2
    rw [Nat.zero_add, Nat.mul_add, Nat.mul_one]
    exact h2
  have hu := (Nat.div_mod_unique hk).mpr key
  exact ⟨hu.2, hu.1⟩

/-- Stepping an index inside a row: when `m % k` is not the last column,
division and remainder advance pointwise. -/
lemma succ_divmod_lt (m k : Nat) (h : m % k + 1 < k) :
    (m + 1) % k = m % k + 1 ∧ (m + 1) / k = m / k := by
  have hk : 0 < k := Nat.lt_of_le_of_lt (Nat.zero_le _) h
  have hdm := Nat.div_add_mod m k
  have key : m % k + 1 + k * (m / k) = m + 1 ∧ m % k + 1 < k := by
    refine ⟨?_, h⟩
    rw [Nat.add_comm (m % k + 1), ← Nat.add_assoc, hdm]
  have hu := (Nat.div_mod_unique hk).mpr key
  exact ⟨hu.2, hu.1⟩

/-- Row-major decomposition of a linear index `c + r * (k + 1)`
with `c ≤ k`. -/
lemma base_divmod (k c r : Nat) (hc : c < k + 1) :
    (c + r * (k + 1)) % (k + 1) = c ∧ (c + r * (k + 1)) / (k + 1) = r := by
  have key : c + (k + 1) * r = c + r * (k + 1) ∧ c < k + 1 :=
    ⟨by rw [Nat.mul_comm], hc⟩
  have hu := (Nat.div_mod_unique (Nat.succ_pos k)).mpr key
  exact ⟨hu.2, hu.1⟩

/-! ### The face sequence, step by step -/

/-- `vert` reads only the grid parameters, never the cursor. -/
lemma vert_cursor (sx sy cx cy cx' cy' x y : Nat) :
    Plane.vert ⟨sx, sy, cx, cy⟩ x y = Plane.vert ⟨sx, sy, cx', cy'⟩ x y := rfl

/-- A `next` call with the cursor strictly inside a row emits the cursor
cell and advances the column. -/
lemma next_emit (sx sy cx cy : Nat) (h : cx < sx) :
    Plane.next ⟨sx, sy, cx, cy⟩ =
      (some ⟨Plane.vert ⟨sx, sy, 0, 0⟩ cx cy,
             Plane.vert ⟨sx, sy, 0, 0⟩ (cx + 1) cy,
             Plane.vert ⟨sx, sy, 0, 0⟩ (cx + 1) (cy + 1),
             Plane.vert ⟨sx, sy, 0, 0⟩ cx (cy + 1)⟩,
       ⟨sx, sy, cx + 1, cy⟩) := by
  simp only [Plane.next]
  rw [if_neg (Nat.ne_of_lt h)]
  rfl

/-- A `next` call at the end of a non-final row wraps to the next row and
emits its first cell. -/
lemma next_wrap_emit (sx sy cy : Nat) (h : cy + 1 < sy) :
    Plane.next ⟨sx, sy, sx, cy⟩ =
      (some ⟨Plane.vert ⟨sx, sy, 0, 0⟩ 0 (cy + 1),
             Plane.vert ⟨sx, sy, 0, 0⟩ 1 (cy + 1),
             Plane.vert ⟨sx, sy, 0, 0⟩ 1 (cy + 2),
             Plane.vert ⟨sx, sy, 0, 0⟩ 0 (cy + 2)⟩,
       ⟨sx, sy, 1, cy + 1⟩) := by
  simp only [Plane.next, if_true]
  rw [if_neg (Nat.ne_of_lt h)]
  rfl

/-- A `next` call at the end of the final row signals end-of-sequence. -/
lemma next_none (sx sy cy : Nat) (h : cy + 1 = sy) :
    Plane.next ⟨sx, sy, sx, cy⟩ = (none, ⟨sx, sy, 0, cy + 1⟩) := by
  simp only [Plane.next, if_true]
  rw [if_pos h]

/-- State of a fresh generator after `n` advances, for `1 ≤ n ≤ sx * sy`:
the cursor sits just after cell `n - 1` of the row-major enumeration. -/
lemma advanceN_fresh (sx sy : Nat) (hx : 0 < sx) :
    ∀ n, 1 ≤ n → n ≤ sx * sy →
      Plane.advanceN ⟨sx, sy, 0, 0⟩ n = ⟨sx, sy, (n - 1) % sx + 1, (n - 1) / sx⟩ := by
  intro n
  induction n with
  | zero => intro h; exact absurd h (by omega)
  | succ m ih =>
    intro _ hle
    rcases Nat.eq_zero_or_pos m with rfl | hm
    · -- the first advance of the fresh generator emits cell (0, 0)
      show (Plane.next ⟨sx, sy, 0, 0⟩).2 = _
      rw [next_emit sx sy 0 0 hx]
      simp [Nat.zero_mod, Nat.zero_div]
    · obtain ⟨k, rfl⟩ : ∃ k, m = k + 1 := ⟨m - 1, by omega⟩
      have hstate := ih hm (by omega)
      rw [Nat.add_sub_cancel] at hstate
      show (Plane.advanceN ⟨sx, sy, 0, 0⟩ (k + 1)).advance = _
      rw [hstate, Nat.add_sub_cancel]
      have hmlt : k % sx < sx := Nat.mod_lt k hx
      rcases Nat.lt_or_ge (k % sx + 1) sx with hcase | hcase
      · -- still inside the row: plain emit
        have hd := succ_divmod_lt k sx hcase
        rw [hd.1, hd.2]
        show (Plane.next ⟨sx, sy, k % sx + 1, k / sx⟩).2 = _
        rw [next_emit sx sy (k % sx + 1) (k / sx) hcase]
      · -- at the end of a row: wrap
        have heq : k % sx + 1 = sx := by omega
        have hd := succ_divmod_eq k sx hx heq
        have hrow : k / sx + 1 < sy := by
          have h1 : k + 1 < sx * sy := by omega
          have hlt : (k + 1) / sx < sy :=
            (Nat.div_lt_iff_lt_mul hx).mpr (by rw [Nat.mul_comm]; exact h1)
          rw [hd.2] at hlt
          exact hlt
        rw [hd.1, hd.2]
        show (Plane.next ⟨sx, sy, k % sx + 1, k / sx⟩).2 = _
        rw [heq, next_wrap_emit sx sy (k / sx) hrow]

/-- The `n`-th advance of a fresh generator, `n < sx * sy`,
emits the quad of grid cell `(n % sx, n / sx)`. -/
lemma emitAt_fresh_lt (sx sy : Nat) (hx : 0 < sx) (hy : 0 < sy)
    (n : Nat) (hn : n < sx * sy) :
    Plane.emitAt ⟨sx, sy, 0, 0⟩ n =
      some ⟨Plane.vert ⟨sx, sy, 0, 0⟩ (n % sx) (n / sx),
            Plane.vert ⟨sx, sy, 0, 0⟩ (n % sx + 1) (n / sx),
            Plane.vert ⟨sx, sy, 0, 0⟩ (n % sx + 1) (n / sx + 1),
            Plane.vert ⟨sx, sy, 0, 0⟩ (n % sx) (n / sx + 1)⟩ := by
  rcases Nat.eq_zero_or_pos n with rfl | hn1
  · show (Plane.next ⟨sx, sy, 0, 0⟩).1 = _
    rw [next_emit sx sy 0 0 hx]
    simp [Nat.zero_mod, Nat.zero_div]
  · obtain ⟨k, rfl⟩ : ∃ k, n = k + 1 := ⟨n - 1, by omega⟩
    have hstate := advanceN_fresh sx sy hx (k + 1) hn1 (by omega)
    rw [Nat.add_sub_cancel] at hstate
    show (Plane.advanceN ⟨sx, sy, 0, 0⟩ (k + 1)).next.1 = _
    rw [hstate]
    have hmlt : k % sx < sx := Nat.mod_lt k hx
    rcases Nat.lt_or_ge (k % sx + 1) sx with hcase | hcase
    · have hd := succ_divmod_lt k sx hcase
      rw [hd.1, hd.2, next_emit sx sy (k % sx + 1) (k / sx) hcase]
    · have heq : k % sx + 1 = sx := by omega
      have hd := succ_divmod_eq k sx hx heq
      have hrow : k / sx + 1 < sy := by
        have hlt : (k + 1) / sx < sy :=
          (Nat.div_lt_iff_lt_mul hx).mpr (by rw [Nat.mul_comm]; exact hn)
        rw [hd.2] at hlt
        exact hlt
      rw [hd.1, hd.2, heq, next_wrap_emit sx sy (k / sx) hrow]

/-- The `(sx * sy)`-th advance of a fresh generator signals
end-of-sequence. -/
lemma emitAt_fresh_end (sx sy : Nat) (hx : 0 < sx) (hy : 0 < sy) :
    Plane.emitAt ⟨sx, sy, 0, 0⟩ (sx * sy) = none := by
  obtain ⟨t, rfl⟩ : ∃ t, sy = t + 1 := ⟨sy - 1, by omega⟩
  have hprod : sx * (t + 1) = sx * t + sx := by ring
  have hT : 1 ≤ sx * (t + 1) := Nat.mul_pos hx hy
  have hstate := advanceN_fresh sx (t + 1) hx (sx * (t + 1)) hT (Nat.le_refl _)
  have hdm : (sx * (t + 1) - 1) % sx = sx - 1 ∧ (sx * (t + 1) - 1) / sx = t := by
    have key : (sx - 1) + sx * t = sx * (t + 1) - 1 ∧ sx - 1 < sx := by
      rw [hprod]
      constructor
      · generalize sx * t = A
        omega
      · omega
    have hu := (Nat.div_mod_unique hx).mpr key
    exact ⟨hu.2, hu.1⟩
  rw [hdm.1, hdm.2] at hstate
  show (Plane.advanceN ⟨sx, t + 1, 0, 0⟩ (sx * (t + 1))).next.1 = none
  rw [hstate]
  have hx1 : sx - 1 + 1 = sx := by omega
  rw [hx1, next_none sx (t + 1) t rfl]

/-! ### The claims -/

/-- Claim C1: for a generator built by `subdivide(sx, sy)` with
`sx, sy ≥ 1`, the `n`-th advance (0-based) of the face sequence, for
`n < sx * sy`, emits the quad of cell `(n % sx, n / sx)` whose corners
are, in order (bottom-left, bottom-right, top-right, top-left), the
vertex coordinates at `(cx, cy)`, `(cx+1, cy)`, `(cx+1, cy+1)`,
`(cx, cy+1)`; the `(sx * sy)`-th advance signals end-of-sequence. -/
theorem plane_c1_face_sequence (sx sy : Nat) (hx : 1 ≤ sx) (hy : 1 ≤ sy) :
    (∀ n, n < sx * sy →
      Plane.emitAt ⟨sx, sy, 0, 0⟩ n =
        some ⟨Plane.vert ⟨sx, sy, 0, 0⟩ (n % sx) (n / sx),
              Plane.vert ⟨sx, sy, 0, 0⟩ (n % sx + 1) (n / sx),
              Plane.vert ⟨sx, sy, 0, 0⟩ (n % sx + 1) (n / sx + 1),
              Plane.vert ⟨sx, sy, 0, 0⟩ (n % sx) (n / sx + 1)⟩) ∧
    Plane.emitAt ⟨sx, sy, 0, 0⟩ (sx * sy) = none :=
  ⟨fun n hn => emitAt_fresh_lt sx sy hx hy n hn, emitAt_fresh_end sx sy hx hy⟩

/-- Witness for C1 at `subdivide(2, 2)`, face 3 (= cell `(1, 1)`). -/
theorem plane_c1_face_sequence_witness :
    Plane.emitAt ⟨2, 2, 0, 0⟩ 3 =
      some ⟨Plane.vert ⟨2, 2, 0, 0⟩ (3 % 2) (3 / 2),
            Plane.vert ⟨2, 2, 0, 0⟩ (3 % 2 + 1) (3 / 2),
            Plane.vert ⟨2, 2, 0, 0⟩ (3 % 2 + 1) (3 / 2 + 1),
            Plane.vert ⟨2, 2, 0, 0⟩ (3 % 2) (3 / 2 + 1)⟩ ∧
    Plane.emitAt ⟨2, 2, 0, 0⟩ (2 * 2) = none :=
  ⟨(plane_c1_face_sequence 2 2 (by decide) (by decide)).1 3 (by decide),
   (plane_c1_face_sequence 2 2 (by decide) (by decide)).2⟩

/-- Claim C2 is violated by the code: the iterator is not fused.  With
`subdivide(1, 1)`, advance 1 signals end-of-sequence, but advance 2
emits again — the quad of the out-of-grid cell `(0, 1)` — and advance 3
emits as well, so the sequence is not permanently exhausted. -/
theorem plane_c2_not_fused :
    Plane.emitAt ⟨1, 1, 0, 0⟩ 1 = none ∧
    Plane.emitAt ⟨1, 1, 0, 0⟩ 2 =
      some ⟨Plane.vert ⟨1, 1, 0, 0⟩ 0 1, Plane.vert ⟨1, 1, 0, 0⟩ 1 1,
            Plane.vert ⟨1, 1, 0, 0⟩ 1 2, Plane.vert ⟨1, 1, 0, 0⟩ 0 2⟩ ∧
    Plane.emitAt ⟨1, 1, 0, 0⟩ 3 ≠ none := by
  refine ⟨by decide, by decide, by decide⟩

/-- Claim C3: `subdivide(x, y)` checks `x > 0 ∧ y > 0`: construction
fails fatally when either argument is zero, and for `x, y ≥ 1` succeeds
with grid parameters `(x, y)` and cursor `(0, 0)`. -/
theorem plane_c3_subdivide_precondition (x y : Nat) :
    Plane.subdivide 0 y = none ∧
    Plane.subdivide x 0 = none ∧
    (1 ≤ x → 1 ≤ y → Plane.subdivide x y = some ⟨x, y, 0, 0⟩) := by
  refine ⟨?_, ?_, fun hx hy => ?_⟩
  · simp [Plane.subdivide]
  · simp [Plane.subdivide]
  · unfold Plane.subdivide
    rw [if_pos ⟨hx, hy⟩]

/-- Witness for C3 at `subdivide(2, 3)`. -/
theorem plane_c3_subdivide_precondition_witness :
    Plane.subdivide 2 3 = some ⟨2, 3, 0, 0⟩ :=
  (plane_c3_subdivide_precondition 2 3).2.2 (by decide) (by decide)

/-- Claim C4: for any grid parameters `sx, sy ≥ 1` (cursor arbitrary)
and any `idx < (sx+1)*(sy+1)`, the shared-vertex lookup returns the pair
`((2/sx)·gx - 1, (2/sy)·gy - 1)` computed in binary32 arithmetic, with
`gx = idx % (sx+1)` and `gy = idx / (sx+1)`. -/
theorem plane_c4_shared_vertex_formula (sx sy cx cy idx : Nat)
    (hx : 1 ≤ sx) (hy : 1 ≤ sy) (hidx : idx < (sx + 1) * (sy + 1)) :
    Plane.shared_vertex ⟨sx, sy, cx, cy⟩ idx =
      (fsub (fmul (fdiv 2 (natToF32 sx)) (natToF32 (idx % (sx + 1)))) 1,
       fsub (fmul (fdiv 2 (natToF32 sy)) (natToF32 (idx / (sx + 1)))) 1) := rfl

/-- Witness for C4 at `subdivide(1, 1)`, vertex index 2. -/
theorem plane_c4_shared_vertex_formula_witness :
    Plane.shared_vertex ⟨1, 1, 0, 0⟩ 2 =
      (fsub (fmul (fdiv 2 (natToF32 1)) (natToF32 (2 % (1 + 1)))) 1,
       fsub (fmul (fdiv 2 (natToF32 1)) (natToF32 (2 / (1 + 1)))) 1) :=
  plane_c4_shared_vertex_formula 1 1 0 0 2 (by decide) (by decide) (by decide)

/-- Claim C5: for any grid parameters `sx, sy ≥ 1` (cursor arbitrary)
and any face index `idx < sx * sy`, the indexed-polygon lookup returns
exactly the four vertex indices `(base + sx + 1, base, base + 1,
base + sx + 2)` — top-left, bottom-left, bottom-right, top-right — with
`base = idx % sx + (idx / sx) * (sx + 1)`. -/
theorem plane_c5_indexed_polygon_formula (sx sy cx cy idx : Nat)
    (hx : 1 ≤ sx) (hy : 1 ≤ sy) (hidx : idx < sx * sy) :
    Plane.indexed_polygon ⟨sx, sy, cx, cy⟩ idx =
      ⟨idx % sx + idx / sx * (sx + 1) + sx + 1,
       idx % sx + idx / sx * (sx + 1),
       idx % sx + idx / sx * (sx + 1) + 1,
       idx % sx + idx / sx * (sx + 1) + sx + 2⟩ := rfl

/-- Witness for C5 at `subdivide(2, 2)`, face 3. -/
theorem plane_c5_indexed_polygon_formula_witness :
    Plane.indexed_polygon ⟨2, 2, 0, 0⟩ 3 =
      ⟨3 % 2 + 3 / 2 * (2 + 1) + 2 + 1,
       3 % 2 + 3 / 2 * (2 + 1),
       3 % 2 + 3 / 2 * (2 + 1) + 1,
       3 % 2 + 3 / 2 * (2 + 1) + 2 + 2⟩ :=
  plane_c5_indexed_polygon_formula 2 2 0 0 3 (by decide) (by decide) (by decide)

/-- Claim C7: `vertex_count()` is `(sx+1)*(sy+1)` and `polygon_count()`
is `sx*sy` for every grid with `sx, sy ≥ 1`; for the generator built by
`new()` (a 1×1 grid) the counts are 4 and 1. -/
theorem plane_c7_counts (sx sy cx cy : Nat) (hx : 1 ≤ sx) (hy : 1 ≤ sy) :
    Plane.shared_vertex_count ⟨sx, sy, cx, cy⟩ = (sx + 1) * (sy + 1) ∧
    Plane.indexed_polygon_count ⟨sx, sy, cx, cy⟩ = sx * sy ∧
    Plane.shared_vertex_count Plane.new = 4 ∧
    Plane.indexed_polygon_count Plane.new = 1 :=
  ⟨rfl, rfl, rfl, rfl⟩

/-- Witness for C7 at `subdivide(2, 2)`. -/
theorem plane_c7_counts_witness :
    Plane.shared_vertex_count ⟨2, 2, 0, 0⟩ = (2 + 1) * (2 + 1) ∧
    Plane.indexed_polygon_count ⟨2, 2, 0, 0⟩ = 2 * 2 ∧
    Plane.shared_vertex_count Plane.new = 4 ∧
    Plane.indexed_polygon_count Plane.new = 1 :=
  plane_c7_counts 2 2 0 0 (by decide) (by decide)

/-- Claim C6: the two views agree bit-for-bit.  For every face `n`, the
coordinates obtained by feeding the four indices of `indexed_polygon n`
through `shared_vertex` equal the corners of the `n`-th quad of the face
sequence, under the documented corner permutation (the indexed view's
top-left, bottom-left, bottom-right, top-right are the sequence quad's
4th, 1st, 2nd, 3rd corners). -/
theorem plane_c6_views_agree (sx sy n : Nat) (hx : 1 ≤ sx) (hy : 1 ≤ sy)
    (hn : n < sx * sy) :
    ∃ q : Quad (ℚ × ℚ),
      Plane.emitAt ⟨sx, sy, 0, 0⟩ n = some q ∧
      Plane.shared_vertex ⟨sx, sy, 0, 0⟩ (Plane.indexed_polygon ⟨sx, sy, 0, 0⟩ n).x = q.w ∧
      Plane.shared_vertex ⟨sx, sy, 0, 0⟩ (Plane.indexed_polygon ⟨sx, sy, 0, 0⟩ n).y = q.x ∧
      Plane.shared_vertex ⟨sx, sy, 0, 0⟩ (Plane.indexed_polygon ⟨sx, sy, 0, 0⟩ n).z = q.y ∧
      Plane.shared_vertex ⟨sx, sy, 0, 0⟩ (Plane.indexed_polygon ⟨sx, sy, 0, 0⟩ n).w = q.z := by
  have hc : n % sx < sx + 1 := Nat.lt_succ_of_lt (Nat.mod_lt n hx)
  have hc1 : n % sx + 1 < sx + 1 := Nat.succ_lt_succ (Nat.mod_lt n hx)
  refine ⟨_, emitAt_fresh_lt sx sy hx hy n hn, ?_, ?_, ?_, ?_⟩
  · have hd := base_divmod sx (n % sx) (n / sx + 1) hc
    show Plane.vert ⟨sx, sy, 0, 0⟩
        ((n % sx + n / sx * (sx + 1) + sx + 1) % (sx + 1))
        ((n % sx + n / sx * (sx + 1) + sx + 1) / (sx + 1)) = _
    rw [show n % sx + n / sx * (sx + 1) + sx + 1
          = n % sx + (n / sx + 1) * (sx + 1) from by ring, hd.1, hd.2]
  · have hd := base_divmod sx (n % sx) (n / sx) hc
    show Plane.vert ⟨sx, sy, 0, 0⟩
        ((n % sx + n / sx * (sx + 1)) % (sx + 1))
        ((n % sx + n / sx * (sx + 1)) / (sx + 1)) = _
    rw [hd.1, hd.2]
  · have hd := base_divmod sx (n % sx + 1) (n / sx) hc1
    show Plane.vert ⟨sx, sy, 0, 0⟩
        ((n % sx + n / sx * (sx + 1) + 1) % (sx + 1))
        ((n % sx + n / sx * (sx + 1) + 1) / (sx + 1)) = _
    rw [show n % sx + n / sx * (sx + 1) + 1
          = n % sx + 1 + n / sx * (sx + 1) from by ring, hd.1, hd.2]
  · have hd := base_divmod sx (n % sx + 1) (n / sx + 1) hc1
    show Plane.vert ⟨sx, sy, 0, 0⟩
        ((n % sx + n / sx * (sx + 1) + sx + 2) % (sx + 1))
        ((n % sx + n / sx * (sx + 1) + sx + 2) / (sx + 1)) = _
    rw [show n % sx + n / sx * (sx + 1) + sx + 2
          = n % sx + 1 + (n / sx + 1) * (sx + 1) from by ring, hd.1, hd.2]

/-- Witness for C6 at `subdivide(2, 2)`, face 3. -/
theorem plane_c6_views_agree_witness :
    ∃ q : Quad (ℚ × ℚ),
      Plane.emitAt ⟨2, 2, 0, 0⟩ 3 = some q ∧
      Plane.shared_vertex ⟨2, 2, 0, 0⟩ (Plane.indexed_polygon ⟨2, 2, 0, 0⟩ 3).x = q.w ∧
      Plane.shared_vertex ⟨2, 2, 0, 0⟩ (Plane.indexed_polygon ⟨2, 2, 0, 0⟩ 3).y = q.x ∧
      Plane.shared_vertex ⟨2, 2, 0, 0⟩ (Plane.indexed_polygon ⟨2, 2, 0, 0⟩ 3).z = q.y ∧
      Plane.shared_vertex ⟨2, 2, 0, 0⟩ (Plane.indexed_polygon ⟨2, 2, 0, 0⟩ 3).w = q.z :=
  plane_c6_views_agree 2 2 3 (by decide) (by decide) (by decide)

/-- Claim C8: every vertex index returned by the indexed-polygon view is
strictly below `vertex_count()`, hence a valid index into the
shared-vertex buffer. -/
theorem plane_c8_indices_bounded (sx sy cx cy i : Nat) (hx : 1 ≤ sx)
    (hy : 1 ≤ sy) (hi : i < sx * sy) :
    (Plane.indexed_polygon ⟨sx, sy, cx, cy⟩ i).x < Plane.shared_vertex_count ⟨sx, sy, cx, cy⟩ ∧
    (Plane.indexed_polygon ⟨sx, sy, cx, cy⟩ i).y < Plane.shared_vertex_count ⟨sx, sy, cx, cy⟩ ∧
    (Plane.indexed_polygon ⟨sx, sy, cx, cy⟩ i).z < Plane.shared_vertex_count ⟨sx, sy, cx, cy⟩ ∧
    (Plane.indexed_polygon ⟨sx, sy, cx, cy⟩ i).w < Plane.shared_vertex_count ⟨sx, sy, cx, cy⟩ := by
  have hc : i % sx < sx := Nat.mod_lt i hx
  have hr : i / sx < sy := (Nat.div_lt_iff_lt_mul hx).mpr (by rw [Nat.mul_comm]; exact hi)
  have hstep : (i / sx + 1) * (sx + 1) ≤ sy * (sx + 1) :=
    Nat.mul_le_mul_right (sx + 1) (Nat.succ_le_of_lt hr)
  have he1 : (i / sx + 1) * (sx + 1) = i / sx * (sx + 1) + (sx + 1) := by ring
  have he2 : (sx + 1) * (sy + 1) = sy * (sx + 1) + (sx + 1) := by ring
  refine ⟨?_, ?_, ?_, ?_⟩
  · show i % sx + i / sx * (sx + 1) + sx + 1 < (sx + 1) * (sy + 1)
    rw [he2]; linarith
  · show i % sx + i / sx * (sx + 1) < (sx + 1) * (sy + 1)
    rw [he2]; linarith
  · show i % sx + i / sx * (sx + 1) + 1 < (sx + 1) * (sy + 1)
    rw [he2]; linarith
  · show i % sx + i / sx * (sx + 1) + sx + 2 < (sx + 1) * (sy + 1)
    rw [he2]; linarith

/-- Witness for C8 at `subdivide(2, 2)`, face 3. -/
theorem plane_c8_indices_bounded_witness :
    (Plane.indexed_polygon ⟨2, 2, 0, 0⟩ 3).x < Plane.shared_vertex_count ⟨2, 2, 0, 0⟩ ∧
    (Plane.indexed_polygon ⟨2, 2, 0, 0⟩ 3).y < Plane.shared_vertex_count ⟨2, 2, 0, 0⟩ ∧
    (Plane.indexed_polygon ⟨2, 2, 0, 0⟩ 3).z < Plane.shared_vertex_count ⟨2, 2, 0, 0⟩ ∧
    (Plane.indexed_polygon ⟨2, 2, 0, 0⟩ 3).w < Plane.shared_vertex_count ⟨2, 2, 0, 0⟩ :=
  plane_c8_indices_bounded 2 2 0 0 3 (by decide) (by decide) (by decide)

/-- Claim C9: adjacent cells share their edge vertex indices.
Horizontally adjacent faces `i` and `i + 1` in the same row share the
right edge of `i` (bottom-right = bottom-left, top-right = top-left of
`i + 1`); vertically adjacent faces `i` and `i + sx` share the top edge
of `i` (top-left = bottom-left, top-right = bottom-right of `i + sx`). -/
theorem plane_c9_adjacent_faces_share_edges (sx sy cx cy i : Nat)
    (hx : 1 ≤ sx) (hy : 1 ≤ sy) (hi : i < sx * sy) :
    (i % sx < sx - 1 →
      (Plane.indexed_polygon ⟨sx, sy, cx, cy⟩ i).z =
        (Plane.indexed_polygon ⟨sx, sy, cx, cy⟩ (i + 1)).y ∧
      (Plane.indexed_polygon ⟨sx, sy, cx, cy⟩ i).w =
        (Plane.indexed_polygon ⟨sx, sy, cx, cy⟩ (i + 1)).x) ∧
    (i / sx < sy - 1 →
      (Plane.indexed_polygon ⟨sx, sy, cx, cy⟩ i).x =
        (Plane.indexed_polygon ⟨sx, sy, cx, cy⟩ (i + sx)).y ∧
      (Plane.indexed_polygon ⟨sx, sy, cx, cy⟩ i).w =
        (Plane.indexed_polygon ⟨sx, sy, cx, cy⟩ (i + sx)).z) := by
  constructor
  · intro h
    have hlt : i % sx + 1 < sx :=
      Nat.lt_of_lt_of_le (Nat.succ_lt_succ h) (by omega : sx - 1 + 1 ≤ sx)
    have hd := succ_divmod_lt i sx hlt
    constructor
    · show i % sx + i / sx * (sx + 1) + 1
          = (i + 1) % sx + (i + 1) / sx * (sx + 1)
      rw [hd.1, hd.2]; ring
    · show i % sx + i / sx * (sx + 1) + sx + 2
          = (i + 1) % sx + (i + 1) / sx * (sx + 1) + sx + 1
      rw [hd.1, hd.2]; ring
  · intro h
    have hmod : (i + sx) % sx = i % sx := Nat.add_mod_right i sx
    have hdiv : (i + sx) / sx = i / sx + 1 := by rw [Nat.add_div_right i hx]
    constructor
    · show i % sx + i / sx * (sx + 1) + sx + 1
          = (i + sx) % sx + (i + sx) / sx * (sx + 1)
      rw [hmod, hdiv]; ring
    · show i % sx + i / sx * (sx + 1) + sx + 2
          = (i + sx) % sx + (i + sx) / sx * (sx + 1) + 1
      rw [hmod, hdiv]; ring

/-- Witness for C9 at `subdivide(2, 2)`, face 0 (right neighbor 1,
upper neighbor 2). -/
theorem plane_c9_adjacent_faces_share_edges_witness :
    ((Plane.indexed_polygon ⟨2, 2, 0, 0⟩ 0).z = (Plane.indexed_polygon ⟨2, 2, 0, 0⟩ 1).y ∧
     (Plane.indexed_polygon ⟨2, 2, 0, 0⟩ 0).w = (Plane.indexed_polygon ⟨2, 2, 0, 0⟩ 1).x) ∧
    ((Plane.indexed_polygon ⟨2, 2, 0, 0⟩ 0).x = (Plane.indexed_polygon ⟨2, 2, 0, 0⟩ 2).y ∧
     (Plane.indexed_polygon ⟨2, 2, 0, 0⟩ 0).w = (Plane.indexed_polygon ⟨2, 2, 0, 0⟩ 2).z) :=
  ⟨(plane_c9_adjacent_faces_share_edges 2 2 0 0 0 (by decide) (by decide) (by decide)).1
     (by decide),
   (plane_c9_adjacent_faces_share_edges 2 2 0 0 0 (by decide) (by decide) (by decide)).2
     (by decide)⟩

/-! ### Corner placement (claim C10) -/

/-- `0 as f32` is exactly `0`. -/
lemma natToF32_zero : natToF32 0 = 0 := by
  simp [natToF32, roundF32]

/-- An `f32` product with exact zero is exactly zero. -/
lemma fmul_f32_zero (a : ℚ) : fmul a 0 = 0 := by
  simp [fmul, roundF32]

/-- `0.0f32 - 1.0f32` is exactly `-1`. -/
lemma fsub_zero_one : fsub 0 1 = -1 := by decide

/-- `2.0f32 - 1.0f32` is exactly `1`. -/
lemma fsub_two_one : fsub 2 1 = 1 := by decide

/-- Claim C10, amended: the corner at index `0` is exactly `(-1, -1)`
for every grid; each other outer corner is exactly at its unit-square
corner under the binary32 round-trip condition `fl(fl(2/s)·s) = 2` for
exactly the subdivision counts its coordinates involve — `sx` alone for
`vertex_at(sx) = (1, -1)`, `sy` alone for
`vertex_at(count - sx - 1) = (-1, 1)`, and both for
`vertex_at(count - 1) = (1, 1)`.  The condition holds, e.g., for all
`s ≤ 40` and all powers of two, but fails for `s = 41`. -/
theorem plane_c10_corners (sx sy cx cy : Nat) (hx : 1 ≤ sx) (hy : 1 ≤ sy) :
    Plane.shared_vertex ⟨sx, sy, cx, cy⟩ 0 = (-1, -1) ∧
    (fmul (fdiv 2 (natToF32 sx)) (natToF32 sx) = 2 →
      Plane.shared_vertex ⟨sx, sy, cx, cy⟩ sx = (1, -1)) ∧
    (fmul (fdiv 2 (natToF32 sx)) (natToF32 sx) = 2 →
      fmul (fdiv 2 (natToF32 sy)) (natToF32 sy) = 2 →
      Plane.shared_vertex ⟨sx, sy, cx, cy⟩ ((sx + 1) * (sy + 1) - 1) = (1, 1)) ∧
    (fmul (fdiv 2 (natToF32 sy)) (natToF32 sy) = 2 →
      Plane.shared_vertex ⟨sx, sy, cx, cy⟩ ((sx + 1) * (sy + 1) - sx - 1) = (-1, 1)) := by
  have e3 : (sx + 1) * (sy + 1) - 1 = sx + sy * (sx + 1) := by
    have e : (sx + 1) * (sy + 1) = sx + sy * (sx + 1) + 1 := by ring
    rw [e]
    generalize sy * (sx + 1) = A
    omega
  have e4 : (sx + 1) * (sy + 1) - sx - 1 = 0 + sy * (sx + 1) := by
    have e : (sx + 1) * (sy + 1) = sy * (sx + 1) + sx + 1 := by ring
    rw [e]
    generalize sy * (sx + 1) = A
    omega
  refine ⟨?_, fun hsx => ?_, fun hsx hsy => ?_, fun hsy => ?_⟩
  · show Plane.vert ⟨sx, sy, cx, cy⟩ (0 % (sx + 1)) (0 / (sx + 1)) = _
    rw [Nat.zero_mod, Nat.zero_div]
    show (fsub (fmul (fdiv 2 (natToF32 sx)) (natToF32 0)) 1,
          fsub (fmul (fdiv 2 (natToF32 sy)) (natToF32 0)) 1) = _
    simp only [natToF32_zero, fmul_f32_zero, fsub_zero_one]
  · show Plane.vert ⟨sx, sy, cx, cy⟩ (sx % (sx + 1)) (sx / (sx + 1)) = _
    rw [Nat.mod_eq_of_lt (Nat.lt_succ_self sx), Nat.div_eq_of_lt (Nat.lt_succ_self sx)]
    show (fsub (fmul (fdiv 2 (natToF32 sx)) (natToF32 sx)) 1,
          fsub (fmul (fdiv 2 (natToF32 sy)) (natToF32 0)) 1) = _
    simp only [natToF32_zero, fmul_f32_zero, fsub_zero_one, hsx, fsub_two_one]
  · rw [e3]
    have hd := base_divmod sx sx sy (Nat.lt_succ_self sx)
    show Plane.vert ⟨sx, sy, cx, cy⟩
        ((sx + sy * (sx + 1)) % (sx + 1)) ((sx + sy * (sx + 1)) / (sx + 1)) = _
    rw [hd.1, hd.2]
    show (fsub (fmul (fdiv 2 (natToF32 sx)) (natToF32 sx)) 1,
          fsub (fmul (fdiv 2 (natToF32 sy)) (natToF32 sy)) 1) = _
    simp only [hsx, hsy, fsub_two_one]
  · rw [e4]
    have hd := base_divmod sx 0 sy (Nat.succ_pos sx)
    show Plane.vert ⟨sx, sy, cx, cy⟩
        ((0 + sy * (sx + 1)) % (sx + 1)) ((0 + sy * (sx + 1)) / (sx + 1)) = _
    rw [hd.1, hd.2]
    show (fsub (fmul (fdiv 2 (natToF32 sx)) (natToF32 0)) 1,
          fsub (fmul (fdiv 2 (natToF32 sy)) (natToF32 sy)) 1) = _
    simp only [natToF32_zero, fmul_f32_zero, fsub_zero_one, hsy, fsub_two_one]

/-- Witness for the amended C10 at `subdivide(2, 2)` (the binary32 round
trip is exact for `s = 2`), discharging every hypothesis of each
conjunct. -/
theorem plane_c10_corners_witness :
    Plane.shared_vertex ⟨2, 2, 0, 0⟩ 0 = (-1, -1) ∧
    Plane.shared_vertex ⟨2, 2, 0, 0⟩ 2 = (1, -1) ∧
    Plane.shared_vertex ⟨2, 2, 0, 0⟩ ((2 + 1) * (2 + 1) - 1) = (1, 1) ∧
    Plane.shared_vertex ⟨2, 2, 0, 0⟩ ((2 + 1) * (2 + 1) - 2 - 1) = (-1, 1) :=
  ⟨(plane_c10_corners 2 2 0 0 (by decide) (by decide)).1,
   (plane_c10_corners 2 2 0 0 (by decide) (by decide)).2.1 (by decide),
   (plane_c10_corners 2 2 0 0 (by decide) (by decide)).2.2.1 (by decide) (by decide),
   (plane_c10_corners 2 2 0 0 (by decide) (by decide)).2.2.2 (by decide)⟩

/-- Claim C10 as stated is false on the code: at `subdivide(41, 1)` the
binary32 value `fl(fl(2/41)·41)` is `2 - 2⁻²³`, so `vertex_at(41)` is
`(1 - 2⁻²³, -1)`, not `(1, -1)` — the four-corner property fails. -/
theorem plane_c10_corner_counterexample :
    ¬ (Plane.shared_vertex ⟨41, 1, 0, 0⟩ 0 = (-1, -1) ∧
       Plane.shared_vertex ⟨41, 1, 0, 0⟩ 41 = (1, -1) ∧
       Plane.shared_vertex ⟨41, 1, 0, 0⟩ ((41 + 1) * (1 + 1) - 1) = (1, 1) ∧
       Plane.shared_vertex ⟨41, 1, 0, 0⟩ ((41 + 1) * (1 + 1) - 41 - 1) = (-1, 1)) := by
  decide
